import Mathlib

/-!
Shallow embedding of the job-runner and work-partitioning core of
pbtranscript (source files `pbtranscript/RunnerUtils.py` and
`pbtranscript/ice/IceQuiver.py`), together with theorems checking the
specification's claims about it.

External effects (the qstat/qsub/qdel command-line tools, the thread
pool, the filesystem) are modelled by explicit oracles passed in as
arguments, and by an event log recording the side effects the code
performs (script writes, submissions, kills, local reruns).
-/

namespace PBTranscript

/-! ## Work partitioner (IceQuiver.py) -/

/-- Python list slicing `xs[a:b]` for `0 ≤ a ≤ b`: out-of-range indices clamp
to the end of the list. -/
def pySlice (xs : List α) (a b : Nat) : List α := (xs.drop a).take (b - a)

/-- The index ranges produced by the loop `for i in xrange(start, end, 100)` in
`IceQuiver.create_quiver_bins` (and the identical loop in
`create_quiver_bins_and_submit_jobs`): bin `i` holds `keys[i : min(end, i+100)]`. -/
def binRanges (start stop : Nat) : List (Nat × Nat) :=
  if h : start < stop then (start, min stop (start + 100)) :: binRanges (start + 100) stop
  else []
termination_by stop - start
decreasing_by omega

/-- `IceQuiver.create_quiver_bins` (lines 494-508), modelled at the level of
the per-bin cluster-id slices `cids = keys[i:min(end, i + 100)]` it builds;
the surrounding bash-script creation is file I/O outside the data model. -/
def create_quiver_bins (keys : List α) (start stop : Nat) : List (List α) :=
  (binRanges start stop).map fun r => pySlice keys r.1 r.2

/-- `int(ceil(len(keys) / float(num_chunks)))` in `IceQuiver.process_chunk_i`
(line 636), as the exact ceiling of `total / n`; Python computes it through a
float division, which is exact at all realistic sizes. -/
def num_clusters_per_chunk (total n : Nat) : Nat := (total + n - 1) / n

/-- `start = i * num_clusters_per_chunk` in `process_chunk_i` (line 639). -/
def chunk_start (total n i : Nat) : Nat := i * num_clusters_per_chunk total n

/-- `num_clusters_in_chunk_i = max(0, min(len(keys) - i * ncpc, ncpc))`
(lines 637-638).  Over ℕ, truncated subtraction makes `min (total - start) c`
coincide with Python's `max(0, min(total - start, c))` on exact integers:
when `start > total` both give 0. -/
def num_clusters_in_chunk_i (total n i : Nat) : Nat :=
  min (total - chunk_start total n i) (num_clusters_per_chunk total n)

/-- `end = start + num_clusters_in_chunk_i` in `process_chunk_i` (line 640). -/
def chunk_stop (total n i : Nat) : Nat :=
  chunk_start total n i + num_clusters_in_chunk_i total n i

/-- The guard of `IceQuiver.create_quiver_bins_and_submit_jobs` (lines 518-519):
`if start >= end or start < 0 or start > len(keys) or end > len(keys):
return []`, followed by the binning loop (lines 531-536), modelled at the level
of the per-bin cluster-id slices; `start < 0` cannot occur over ℕ. -/
def create_quiver_bins_and_submit_jobs (keys : List α) (start stop : Nat) :
    List (List α) :=
  if start ≥ stop ∨ start > keys.length ∨ stop > keys.length then []
  else (binRanges start stop).map fun r => pySlice keys r.1 r.2

theorem binRanges_eq (start stop : Nat) :
    binRanges start stop =
      if start < stop then (start, min stop (start + 100)) :: binRanges (start + 100) stop
      else [] := by
  rw [binRanges]
  split <;> rfl

theorem binRanges_nil (start stop : Nat) (h : ¬ start < stop) :
    binRanges start stop = [] := by
  rw [binRanges_eq, if_neg h]

theorem binRanges_bounds (start stop : Nat) :
    ∀ r ∈ binRanges start stop,
      start ≤ r.1 ∧ r.1 < stop ∧ r.2 = min stop (r.1 + 100) := by
  rw [binRanges_eq]
  split
  · rename_i h
    intro r hr
    rcases List.mem_cons.mp hr with rfl | hr
    · exact ⟨le_refl _, h, rfl⟩
    · have ih := binRanges_bounds (start + 100) stop r hr
      exact ⟨by omega, ih.2.1, ih.2.2⟩
  · intro r hr
    simp at hr
termination_by stop - start
decreasing_by omega

/-- Concatenating two adjacent Python slices gives the combined slice. -/
theorem pySlice_append (xs : List α) (a b c : Nat) (hab : a ≤ b) (hbc : b ≤ c) :
    pySlice xs a b ++ pySlice xs b c = pySlice xs a c := by
  unfold pySlice
  have h1 : c - a = (b - a) + (c - b) := by omega
  rw [h1, List.take_add, List.drop_drop]
  have h2 : a + (b - a) = b := by omega
  rw [h2]

theorem pySlice_length (xs : List α) (a b : Nat) (hb : b ≤ xs.length) :
    (pySlice xs a b).length = b - a := by
  unfold pySlice
  rw [List.length_take, List.length_drop]
  omega

/-- Joining the bin slices reproduces the whole slice `keys[start:stop]`. -/
theorem binRanges_join (keys : List α) (start stop : Nat) (h : start ≤ stop) :
    ((binRanges start stop).map fun r => pySlice keys r.1 r.2).flatten
      = pySlice keys start stop := by
  rw [binRanges_eq]
  split
  · rename_i hlt
    rw [List.map_cons, List.flatten_cons]
    rcases le_or_lt stop (start + 100) with hle | hgt
    · have : min stop (start + 100) = stop := by omega
      rw [this]
      rw [binRanges_nil (start + 100) stop (by omega)]
      simp [pySlice]
    · have ih := binRanges_join keys (start + 100) stop (by omega)
      have : min stop (start + 100) = start + 100 := by omega
      rw [this, ih]
      exact pySlice_append keys start (start + 100) stop (by omega) (by omega)
  · rename_i hge
    have : stop = start := by omega
    simp [this, pySlice]
termination_by stop - start
decreasing_by omega

/-- Every bin range except the last spans exactly 100 indices. -/
theorem binRanges_dropLast_width (start stop : Nat) :
    ∀ r ∈ (binRanges start stop).dropLast, r.2 = r.1 + 100 := by
  rw [binRanges_eq]
  split
  · rename_i hlt
    intro r hr
    rcases le_or_lt stop (start + 100) with hle | hgt
    · rw [binRanges_nil (start + 100) stop (by omega)] at hr
      simp at hr
    · rw [List.dropLast_cons_of_ne_nil] at hr
      · rcases List.mem_cons.mp hr with rfl | hr
        · simp
          omega
        · exact binRanges_dropLast_width (start + 100) stop r hr
      · rw [binRanges_eq, if_pos (by omega)]
        simp
  · intro r hr
    simp at hr
termination_by stop - start
decreasing_by omega

/-- The bin ranges are pairwise disjoint (each ends before the next begins). -/
theorem binRanges_pairwise (start stop : Nat) :
    List.Pairwise (fun r s => r.2 ≤ s.1) (binRanges start stop) := by
  rw [binRanges_eq]
  split
  · rename_i hlt
    refine List.Pairwise.cons ?_ (binRanges_pairwise (start + 100) stop)
    intro s hs
    have := (binRanges_bounds (start + 100) stop s hs).1
    simp
    omega
  · exact List.Pairwise.nil
termination_by stop - start
decreasing_by omega

theorem ncpc_bounds (total n : Nat) (hn : 1 ≤ n) :
    total ≤ n * num_clusters_per_chunk total n
    ∧ n * num_clusters_per_chunk total n < total + n := by
  have hd := Nat.div_add_mod (total + n - 1) n
  have hm : (total + n - 1) % n < n := Nat.mod_lt _ (by omega)
  unfold num_clusters_per_chunk
  set p := n * ((total + n - 1) / n) with hp
  set r := (total + n - 1) % n with hr
  omega

theorem chunk_start_succ (total n i : Nat) :
    chunk_start total n (i + 1)
      = chunk_start total n i + num_clusters_per_chunk total n := by
  unfold chunk_start
  ring

theorem chunk_start_mono (total n : Nat) {i j : Nat} (h : i ≤ j) :
    chunk_start total n i ≤ chunk_start total n j :=
  mul_le_mul_right' h _

theorem chunk_stop_le (total n i : Nat) :
    chunk_stop total n i
      ≤ chunk_start total n i + num_clusters_per_chunk total n := by
  unfold chunk_stop num_clusters_in_chunk_i
  omega

theorem chunk_start_le_stop (total n i : Nat) :
    chunk_start total n i ≤ chunk_stop total n i := by
  unfold chunk_stop
  omega

theorem chunk_stop_of_le (total n i : Nat) (h : chunk_start total n i ≤ total) :
    chunk_stop total n i
      = min total (chunk_start total n i + num_clusters_per_chunk total n) := by
  unfold chunk_stop num_clusters_in_chunk_i
  omega

theorem chunk_stop_of_ge (total n i : Nat) (h : total ≤ chunk_start total n i) :
    chunk_stop total n i = chunk_start total n i := by
  unfold chunk_stop num_clusters_in_chunk_i
  omega

/-- C5: for every `total ≥ 0`, `n ≥ 1` and chunk index `i < n`, the chunking of
`IceQuiver.process_chunk_i` computes `chunkSize = ceil(total/n)` (characterised
by `total ≤ n*c < total + n`) and assigns chunk `i` the index range
`[i*chunkSize, min(total, (i+1)*chunkSize))`; chunks beyond `total` are empty
(`start = stop`) and are skipped by the guard of
`create_quiver_bins_and_submit_jobs` (yielding no work) rather than raising;
across all `i < n` the chunks are pairwise disjoint, contiguous, and their
union is exactly `[0, total)`. -/
theorem C5_chunking (total n i : Nat) (keys : List Nat)
    (hn : 1 ≤ n) (hi : i < n) :
    (total ≤ n * num_clusters_per_chunk total n
       ∧ n * num_clusters_per_chunk total n < total + n)
    ∧ Finset.Ico (chunk_start total n i) (chunk_stop total n i)
        = Finset.Ico (i * num_clusters_per_chunk total n)
            (min total ((i + 1) * num_clusters_per_chunk total n))
    ∧ (total ≤ chunk_start total n i →
        chunk_stop total n i = chunk_start total n i
        ∧ create_quiver_bins_and_submit_jobs keys (chunk_start total n i)
            (chunk_stop total n i) = [])
    ∧ (∀ j, j < n → i ≠ j →
        Disjoint (Finset.Ico (chunk_start total n i) (chunk_stop total n i))
          (Finset.Ico (chunk_start total n j) (chunk_stop total n j)))
    ∧ (Finset.range n).biUnion
          (fun k => Finset.Ico (chunk_start total n k) (chunk_stop total n k))
        = Finset.Ico 0 total
    ∧ (chunk_start total n (i + 1) < chunk_stop total n (i + 1) →
        chunk_stop total n i = chunk_start total n (i + 1)) := by
  have hb := ncpc_bounds total n hn
  refine ⟨hb, ?_, ?_, ?_, ?_, ?_⟩
  · -- the per-chunk index range
    ext x
    simp only [Finset.mem_Ico]
    have hsucc := chunk_start_succ total n i
    rw [show (i + 1) * num_clusters_per_chunk total n
          = chunk_start total n (i + 1) from rfl, hsucc]
    rw [show i * num_clusters_per_chunk total n = chunk_start total n i from rfl]
    unfold chunk_stop num_clusters_in_chunk_i
    omega
  · -- chunks beyond total are empty and skipped
    intro h
    have he := chunk_stop_of_ge total n i h
    refine ⟨he, ?_⟩
    unfold create_quiver_bins_and_submit_jobs
    rw [if_pos]
    left
    omega
  · -- disjointness
    intro j hj hij
    rw [Finset.disjoint_left]
    intro x hxi hxj
    simp only [Finset.mem_Ico] at hxi hxj
    rcases lt_or_gt_of_ne hij with hlt | hgt
    · have h1 : chunk_start total n i + num_clusters_per_chunk total n
          ≤ chunk_start total n j := by
        rw [← chunk_start_succ]
        exact chunk_start_mono total n (by omega)
      have h2 := chunk_stop_le total n i
      omega
    · have h1 : chunk_start total n j + num_clusters_per_chunk total n
          ≤ chunk_start total n i := by
        rw [← chunk_start_succ]
        exact chunk_start_mono total n (by omega)
      have h2 := chunk_stop_le total n j
      omega
  · -- the union of all chunks is [0, total)
    ext x
    simp only [Finset.mem_biUnion, Finset.mem_range, Finset.mem_Ico]
    constructor
    · rintro ⟨k, hk, hx1, hx2⟩
      rcases le_or_lt (chunk_start total n k) total with hle | hgt
      · have := chunk_stop_of_le total n k hle
        omega
      · have := chunk_stop_of_ge total n k (by omega)
        omega
    · rintro ⟨-, hx⟩
      have hc : 0 < num_clusters_per_chunk total n := by
        rcases Nat.eq_zero_or_pos (num_clusters_per_chunk total n) with h0 | h0
        · rw [h0, Nat.mul_zero] at hb
          omega
        · exact h0
      refine ⟨x / num_clusters_per_chunk total n, ?_, ?_, ?_⟩
      · exact (Nat.div_lt_iff_lt_mul hc).mpr (by omega)
      · exact Nat.div_mul_le_self x _
      · have hds : chunk_start total n (x / num_clusters_per_chunk total n)
            = x / num_clusters_per_chunk total n * num_clusters_per_chunk total n := rfl
        have hdm := Nat.div_add_mod x (num_clusters_per_chunk total n)
        have hml : x % num_clusters_per_chunk total n < num_clusters_per_chunk total n :=
          Nat.mod_lt _ hc
        have hcm : num_clusters_per_chunk total n * (x / num_clusters_per_chunk total n)
            = x / num_clusters_per_chunk total n * num_clusters_per_chunk total n :=
          Nat.mul_comm _ _
        have hstles : chunk_start total n (x / num_clusters_per_chunk total n) ≤ total := by
          rw [hds]
          have := Nat.div_mul_le_self x (num_clusters_per_chunk total n)
          omega
        have := chunk_stop_of_le total n (x / num_clusters_per_chunk total n) hstles
        rw [this, hds]
        omega
  · -- contiguity with the next non-empty chunk
    intro h
    have hlt : chunk_start total n (i + 1) < total := by
      by_contra hge
      push_neg at hge
      have := chunk_stop_of_ge total n (i + 1) hge
      omega
    have h1 := chunk_stop_of_le total n i
      (le_trans (chunk_start_mono total n (Nat.le_succ i)) (le_of_lt hlt))
    rw [h1, ← chunk_start_succ]
    omega

/-- Witness for C5 at `total = 2`, `n = 3`, `i = 2`: chunk 2 lies beyond
`total`, is empty and is skipped. -/
theorem C5_chunking_witness :
    (1 ≤ 3 ∧ 2 < 3)
    ∧ ((2 ≤ 3 * num_clusters_per_chunk 2 3
          ∧ 3 * num_clusters_per_chunk 2 3 < 2 + 3)
       ∧ Finset.Ico (chunk_start 2 3 2) (chunk_stop 2 3 2)
           = Finset.Ico (2 * num_clusters_per_chunk 2 3)
               (min 2 ((2 + 1) * num_clusters_per_chunk 2 3))
       ∧ (2 ≤ chunk_start 2 3 2 →
           chunk_stop 2 3 2 = chunk_start 2 3 2
           ∧ create_quiver_bins_and_submit_jobs [10, 20] (chunk_start 2 3 2)
               (chunk_stop 2 3 2) = [])
       ∧ (∀ j, j < 3 → 2 ≠ j →
           Disjoint (Finset.Ico (chunk_start 2 3 2) (chunk_stop 2 3 2))
             (Finset.Ico (chunk_start 2 3 j) (chunk_stop 2 3 j)))
       ∧ (Finset.range 3).biUnion
             (fun k => Finset.Ico (chunk_start 2 3 k) (chunk_stop 2 3 k))
           = Finset.Ico 0 2
       ∧ (chunk_start 2 3 (2 + 1) < chunk_stop 2 3 (2 + 1) →
           chunk_stop 2 3 2 = chunk_start 2 3 (2 + 1))) :=
  ⟨by decide, C5_chunking 2 3 2 [10, 20] (by decide) (by decide)⟩

/-- C6: for every key sequence restricted to a valid range `[start, stop)` and
the fixed bin size 100 of `IceQuiver.create_quiver_bins`, concatenating the
produced bins reproduces the input key slice exactly (preserving order), every
bin except possibly the last has length 100, and the bins are cut from
pairwise-disjoint index ranges (each range ends before the next begins). -/
theorem C6_quiver_bins (α : Type) (keys : List α) (start stop : Nat)
    (h1 : start ≤ stop) (h2 : stop ≤ keys.length) :
    (create_quiver_bins keys start stop).flatten = pySlice keys start stop
    ∧ (∀ b ∈ (create_quiver_bins keys start stop).dropLast, b.length = 100)
    ∧ List.Pairwise (fun r s => r.2 ≤ s.1) (binRanges start stop)
    ∧ create_quiver_bins keys start stop
        = (binRanges start stop).map fun r => pySlice keys r.1 r.2 := by
  refine ⟨binRanges_join keys start stop h1, ?_, binRanges_pairwise start stop, rfl⟩
  intro b hb
  unfold create_quiver_bins at hb
  rw [← List.map_dropLast] at hb
  rcases List.mem_map.mp hb with ⟨r, hr, rfl⟩
  have hw := binRanges_dropLast_width start stop r hr
  have hmem : r ∈ binRanges start stop := List.dropLast_subset _ hr
  have hbd := binRanges_bounds start stop r hmem
  have hr2 : r.2 ≤ stop := by omega
  rw [pySlice_length keys r.1 r.2 (by omega)]
  omega

/-- Witness for C6 on the keys `0, …, 119`: two bins, the first of length
exactly 100. -/
theorem C6_quiver_bins_witness :
    (0 ≤ 120 ∧ 120 ≤ (List.range 120).length)
    ∧ ((create_quiver_bins (List.range 120) 0 120).flatten
          = pySlice (List.range 120) 0 120
       ∧ (∀ b ∈ (create_quiver_bins (List.range 120) 0 120).dropLast,
            b.length = 100)
       ∧ List.Pairwise (fun r s => r.2 ≤ s.1) (binRanges 0 120)
       ∧ create_quiver_bins (List.range 120) 0 120
           = (binRanges 0 120).map fun r => pySlice (List.range 120) r.1 r.2) :=
  ⟨⟨by decide, by simp⟩,
   C6_quiver_bins Nat (List.range 120) 0 120 (by decide) (by simp)⟩

/-! ## Remote waiter (RunnerUtils.py, `wait_for_sge_jobs`) -/

/-- One qstat poll outcome, the oracle for `get_active_sge_jobs`
(RunnerUtils.py lines 77-87): `some d` is the parsed `{jid: status}`
dictionary, `none` models the query raising `RuntimeError` (the `except`
branch of lines 83-87). -/
abbrev PollResult := Option (List (String × String))

/-- `not_done_jids = list(set(jids).intersection(set(active_d.keys())))`
(line 188): the requested jids the scheduler still reports active.  Python's
set has no stable order, so only membership is meaningful; we keep the order
of `jids`. -/
def notDone (jids : List String) (d : List (String × String)) : List String :=
  jids.filter fun j => (d.lookup j).isSome

/-- Python's `s.startswith(p)`, over the character lists (Lean's own
`String.startsWith` does not reduce in the kernel). -/
def pyStartsWith (s p : String) : Bool := p.data.isPrefixOf s.data

/-- `active_d[jid].startswith('r')` (line 206). -/
def isRunning (d : List (String × String)) (j : String) : Bool :=
  match d.lookup j with
  | some s => pyStartsWith s "r"
  | none => false

/-- The `runtime_passed[jid] += check_sge_every_n_seconds` update of
lines 204-207: add 10 to every not-done jid whose status starts with 'r'. -/
def bumpRuntime (d : List (String × String)) (nd : List String)
    (rp : String → Nat) : String → Nat :=
  fun j => if j ∈ nd ∧ isRunning d j then rp j + 10 else rp j

/-- `wait_timeout is not None and time_passed >= wait_timeout` (line 198). -/
def wtTriggered (wt : Option Nat) (tp : Nat) : Bool :=
  match wt with
  | some w => tp ≥ w
  | none => false

inductive WaitOutcome
  /-- normal exit of the `while True` loop: `return list(set(killed_jobs))` -/
  | done (killed : List String)
  /-- the `RuntimeError` of `get_active_sge_jobs` propagating out of the loop -/
  | raised
  deriving Repr, DecidableEq

structure WaitRes where
  outcome : WaitOutcome
  /-- the jids passed to `kill_sge_jobs` (`qdel`), in order -/
  kills : List String
  deriving Repr, DecidableEq

/-- The `while True` loop of `wait_for_sge_jobs` (lines 186-216), driven by the
finite trace of poll outcomes; `none` means the trace ran out while the loop
would still be polling.  State: `tp = time_passed`, `rp = runtime_passed`,
`kj = killed_jobs`, `ks` = kill commands issued so far.  The returned killed
list is `kj.dedup`, the membership-faithful rendering of
`list(set(killed_jobs))`. -/
def waitAux (jids : List String) (wt rt : Option Nat) :
    List PollResult → Nat → (String → Nat) → List String → List String →
    Option WaitRes
  | [], _, _, _, _ => none
  | none :: _, _, _, _, ks => some ⟨.raised, ks⟩
  | some d :: rest, tp, rp, kj, ks =>
    let nd := notDone jids d
    if nd = [] then some ⟨.done kj.dedup, ks⟩
    else
      let tp' := tp + 10
      if wtTriggered wt tp' then some ⟨.done ((kj ++ nd).dedup), ks ++ nd⟩
      else
        match rt with
        | some rtv =>
          let rp' := bumpRuntime d nd rp
          let toKill := nd.filter fun j => rp' j ≥ rtv
          waitAux jids wt rt rest tp' rp' (kj ++ toKill) (ks ++ toKill)
        | none => waitAux jids wt rt rest tp' rp kj ks

/-- `RunnerUtils.wait_for_sge_jobs` (lines 151-216): wait until no requested
jid is reported active, killing jobs on the wait-timeout or run-timeout
policies. -/
def wait_for_sge_jobs (jids : List String) (wt rt : Option Nat)
    (trace : List PollResult) : Option WaitRes :=
  waitAux jids wt rt trace 0 (fun _ => 0) [] []

/-- Whenever the waiter terminates normally, the returned killed list is
duplicate-free. -/
theorem waitAux_done_nodup (trace : List PollResult) :
    ∀ (jids : List String) (wt rt : Option Nat) (tp : Nat) (rp : String → Nat)
      (kj ks : List String) (res : WaitRes) (k : List String),
      waitAux jids wt rt trace tp rp kj ks = some res →
      res.outcome = .done k → k.Nodup := by
  induction trace with
  | nil =>
    intro jids wt rt tp rp kj ks res k h
    simp [waitAux] at h
  | cons p rest ih =>
    intro jids wt rt tp rp kj ks res k h hout
    cases p with
    | none =>
      simp [waitAux] at h
      rw [← h] at hout
      simp at hout
    | some d =>
      rw [show waitAux jids wt rt (some d :: rest) tp rp kj ks
            = if notDone jids d = [] then some ⟨.done kj.dedup, ks⟩
              else if wtTriggered wt (tp + 10)
              then some ⟨.done ((kj ++ notDone jids d).dedup), ks ++ notDone jids d⟩
              else match rt with
                | some rtv =>
                  waitAux jids wt rt rest (tp + 10)
                    (bumpRuntime d (notDone jids d) rp)
                    (kj ++ (notDone jids d).filter
                      fun j => bumpRuntime d (notDone jids d) rp j ≥ rtv)
                    (ks ++ (notDone jids d).filter
                      fun j => bumpRuntime d (notDone jids d) rp j ≥ rtv)
                | none => waitAux jids wt rt rest (tp + 10) rp kj ks
            from rfl] at h
      by_cases h1 : notDone jids d = []
      · rw [if_pos h1] at h
        injection h with h
        rw [← h] at hout
        injection hout with hout
        rw [← hout]
        exact List.nodup_dedup kj
      · rw [if_neg h1] at h
        by_cases h2 : wtTriggered wt (tp + 10)
        · rw [if_pos h2] at h
          injection h with h
          rw [← h] at hout
          injection hout with hout
          rw [← hout]
          exact List.nodup_dedup _
        · rw [if_neg h2] at h
          cases rt with
          | some rtv => exact ih _ _ _ _ _ _ _ _ _ h hout
          | none => exact ih _ _ _ _ _ _ _ _ _ h hout

/-- C2 counterexample: with a trace whose first status query raises (and under
which, per the claim, the waiter would have treated the cycle as observing no
active jobs and continued to see the job active and then gone), the waiter
instead aborts at once with the propagated exception: the claim that it
"neither marks the outstanding jobs completed nor aborts the wait with a
propagated exception" is false on the code, which has no handler around
`get_active_sge_jobs()` at line 187. -/
theorem C2_counterexample :
    wait_for_sge_jobs ["1"] none none
        [none, some [("1", "r")], some []]
      = some ⟨.raised, []⟩ := rfl

/-- C2 (amended): in every poll cycle in which the status query fails, the
`RuntimeError` raised by `get_active_sge_jobs` (lines 83-87) propagates out of
the wait loop unhandled, aborting the wait immediately — whatever the waiter
state and whatever the rest of the trace; no further job is killed. -/
theorem C2_query_failure_propagates (jids : List String) (wt rt : Option Nat)
    (rest : List PollResult) (tp : Nat) (rp : String → Nat)
    (kj ks : List String) :
    waitAux jids wt rt (none :: rest) tp rp kj ks = some ⟨.raised, ks⟩ := rfl

/-- C3: in any wait state with the wait timeout configured, as soon as a cycle
ends with `time_passed ≥ wait_timeout` while some jobs are still active, the
waiter kills exactly the still-active jids, includes all of them in the
returned (deduplicated) killed list, and terminates the loop regardless of the
remaining trace. -/
theorem C3_wait_timeout_kills_all (jids : List String) (w : Nat)
    (rt : Option Nat) (d : List (String × String)) (rest : List PollResult)
    (tp : Nat) (rp : String → Nat) (kj ks : List String)
    (hnd : notDone jids d ≠ []) (htp : tp + 10 ≥ w) :
    waitAux jids (some w) rt (some d :: rest) tp rp kj ks
        = some ⟨.done ((kj ++ notDone jids d).dedup), ks ++ notDone jids d⟩
    ∧ ∀ j ∈ notDone jids d, j ∈ (kj ++ notDone jids d).dedup := by
  constructor
  · rw [show waitAux jids (some w) rt (some d :: rest) tp rp kj ks
          = if notDone jids d = [] then some ⟨.done kj.dedup, ks⟩
            else if wtTriggered (some w) (tp + 10)
            then some ⟨.done ((kj ++ notDone jids d).dedup), ks ++ notDone jids d⟩
            else match rt with
              | some rtv =>
                waitAux jids (some w) rt rest (tp + 10)
                  (bumpRuntime d (notDone jids d) rp)
                  (kj ++ (notDone jids d).filter
                    fun j => bumpRuntime d (notDone jids d) rp j ≥ rtv)
                  (ks ++ (notDone jids d).filter
                    fun j => bumpRuntime d (notDone jids d) rp j ≥ rtv)
              | none => waitAux jids (some w) rt rest (tp + 10) rp kj ks
          from rfl]
    rw [if_neg hnd, if_pos]
    simp [wtTriggered]
    omega
  · intro j hj
    rw [List.mem_dedup, List.mem_append]
    exact Or.inr hj

/-- Witness for C3, realising the spec's scenario: `waitTimeout = 15`, poll
interval 10, one job that stays in state "qw" (never running); after the
second cycle (20s elapsed) it is killed and reported in the killed set. -/
theorem C3_wait_timeout_kills_all_witness :
    (notDone ["1"] [("1", "qw")] ≠ [] ∧ 10 + 10 ≥ 15)
    ∧ wait_for_sge_jobs ["1"] (some 15) none
          [some [("1", "qw")], some [("1", "qw")]]
        = some ⟨.done ["1"], ["1"]⟩ := by
  refine ⟨⟨by decide, by decide⟩, ?_⟩
  have e : wait_for_sge_jobs ["1"] (some 15) none
        [some [("1", "qw")], some [("1", "qw")]]
      = waitAux ["1"] (some 15) none [some [("1", "qw")]] 10 (fun _ => 0) [] [] := rfl
  rw [e]
  exact (C3_wait_timeout_kills_all ["1"] 15 none [("1", "qw")] [] 10
    (fun _ => 0) [] [] (by decide) (by decide)).1

/-- C4: with the run timeout configured (and the wait timeout not firing this
cycle), a poll cycle increments a job's observed running time by the poll
interval exactly when that job is still active and its polled state starts
with the scheduler's running code `'r'`; exactly the jobs whose accumulated
running time reaches the run timeout are killed this cycle, while the loop
continues waiting for the rest; and the killed list finally returned is
deduplicated. -/
theorem C4_run_timeout_per_job (jids : List String) (wt : Option Nat)
    (rtv : Nat) (d : List (String × String)) (rest : List PollResult)
    (tp : Nat) (rp : String → Nat) (kj ks : List String)
    (hnd : notDone jids d ≠ []) (hwt : wtTriggered wt (tp + 10) = false) :
    (waitAux jids wt (some rtv) (some d :: rest) tp rp kj ks
        = waitAux jids wt (some rtv) rest (tp + 10)
            (bumpRuntime d (notDone jids d) rp)
            (kj ++ (notDone jids d).filter
              fun j => bumpRuntime d (notDone jids d) rp j ≥ rtv)
            (ks ++ (notDone jids d).filter
              fun j => bumpRuntime d (notDone jids d) rp j ≥ rtv))
    ∧ (∀ j, bumpRuntime d (notDone jids d) rp j
        = if j ∈ notDone jids d ∧ isRunning d j then rp j + 10 else rp j)
    ∧ (∀ res k, waitAux jids wt (some rtv) (some d :: rest) tp rp kj ks = some res →
        res.outcome = .done k → k.Nodup) := by
  refine ⟨?_, fun j => rfl, fun res k h hout => waitAux_done_nodup _ _ _ _ _ _ _ _ _ _ h hout⟩
  rw [show waitAux jids wt (some rtv) (some d :: rest) tp rp kj ks
        = if notDone jids d = [] then some ⟨.done kj.dedup, ks⟩
          else if wtTriggered wt (tp + 10)
          then some ⟨.done ((kj ++ notDone jids d).dedup), ks ++ notDone jids d⟩
          else waitAux jids wt (some rtv) rest (tp + 10)
                (bumpRuntime d (notDone jids d) rp)
                (kj ++ (notDone jids d).filter
                  fun j => bumpRuntime d (notDone jids d) rp j ≥ rtv)
                (ks ++ (notDone jids d).filter
                  fun j => bumpRuntime d (notDone jids d) rp j ≥ rtv)
        from rfl]
  rw [if_neg hnd, hwt]
  simp

/-- Witness for C4: two active jobs, one running ("r"), one queued ("qw"),
`runTimeout = 10`: only the running one accumulates running time and only it
is killed; the full run then returns exactly it, deduplicated. -/
theorem C4_run_timeout_per_job_witness :
    (notDone ["1", "2"] [("1", "r"), ("2", "qw")] ≠ []
       ∧ wtTriggered none (0 + 10) = false)
    ∧ waitAux ["1", "2"] none (some 10)
          [some [("1", "r"), ("2", "qw")], some []] 0 (fun _ => 0) [] []
        = some ⟨.done ["1"], ["1"]⟩
    ∧ bumpRuntime [("1", "r"), ("2", "qw")]
        (notDone ["1", "2"] [("1", "r"), ("2", "qw")]) (fun _ => 0) "1" = 10
    ∧ bumpRuntime [("1", "r"), ("2", "qw")]
        (notDone ["1", "2"] [("1", "r"), ("2", "qw")]) (fun _ => 0) "2" = 0 := by
  have h := C4_run_timeout_per_job ["1", "2"] none 10 [("1", "r"), ("2", "qw")]
    [some []] 0 (fun _ => 0) [] [] (by decide) (by decide)
  exact ⟨⟨by decide, by decide⟩, h.1.trans (by rfl),
    (h.2.1 "1").trans (by rfl), (h.2.1 "2").trans (by rfl)⟩

/-! ## Local executor (RunnerUtils.py, `local_job_runner`) -/

/-- Python's `sep.join(strs)`. -/
def strJoin (sep : String) : List String → String
  | [] => ""
  | [x] => x
  | x :: y :: rest => x ++ sep ++ strJoin sep (y :: rest)

/-- `RunnerUtils.local_job_runner` (lines 42-74).  The call
`backticks(x, merge_stderr=True)` is modelled by the oracle
`shell : cmd ↦ (captured output, exit status)`; `ThreadPool.map` returns
results in input order.  `.error msg` models `raise RuntimeError(errmsg)`
(lines 69-72), `.ok` the list of failed commands (line 74). -/
def local_job_runner (shell : String → String × Int) (cmds_list : List String)
    (num_threads : Nat) (throw_error : Bool) : Except String (List String) :=
  let rets := cmds_list.map shell
  let pairs := cmds_list.zip rets
  let failed_cmds := (pairs.filter fun p => p.2.2 ≠ 0).map Prod.fst
  let failed_cmds_out := (pairs.filter fun p => p.2.2 ≠ 0).map fun p => p.2.1
  if throw_error ∧ 0 < failed_cmds.length then
    .error (strJoin "\n" ((failed_cmds.zip failed_cmds_out).map
      fun p => "CMD failed: " ++ p.1 ++ ", " ++ p.2))
  else .ok failed_cmds

theorem zip_shell_filter (shell : String → String × Int) (cmds : List String) :
    ((cmds.zip (cmds.map shell)).filter fun p => p.2.2 ≠ 0)
      = (cmds.filter fun c => (shell c).2 ≠ 0).map fun c => (c, shell c) := by
  induction cmds with
  | nil => rfl
  | cons c rest ih =>
    simp only [List.map_cons, List.zip_cons_cons, List.filter_cons]
    by_cases h : (shell c).2 ≠ 0
    · simpa [h] using ih
    · simpa [h] using ih

theorem strJoin_mem_infix (sep : String) (l : List String) (x : String)
    (hx : x ∈ l) : x.data.IsInfix (strJoin sep l).data := by
  induction l with
  | nil => simp at hx
  | cons a rest ih =>
    cases rest with
    | nil =>
      rcases List.mem_cons.mp hx with rfl | hx
      · exact List.infix_refl _
      · simp at hx
    | cons b t =>
      rcases List.mem_cons.mp hx with rfl | hx
      · refine ⟨[], (sep ++ strJoin sep (b :: t)).data, ?_⟩
        show [] ++ x.data ++ (sep ++ strJoin sep (b :: t)).data
          = (x ++ sep ++ strJoin sep (b :: t)).data
        simp [String.data_append, List.append_assoc]
      · have h1 := ih hx
        have h2 : (strJoin sep (b :: t)).data.IsSuffix
            (strJoin sep (a :: b :: t)).data := by
          show (strJoin sep (b :: t)).data.IsSuffix
            (a ++ sep ++ strJoin sep (b :: t)).data
          refine ⟨(a ++ sep).data, ?_⟩
          simp [String.data_append]
        exact h1.trans h2.isInfix

/-- C7: the local executor raises iff `throw_error` is set and at least one
command exits non-zero; the raised message contains, for every failed command,
the "CMD failed: cmd, output" line with its command text and captured output;
and when it does not raise it returns exactly the commands with non-zero exit
status, in input order. -/
theorem C7_local_executor (shell : String → String × Int)
    (cmds_list : List String) (num_threads : Nat) (throw_error : Bool) :
    ((∃ e, local_job_runner shell cmds_list num_threads throw_error = .error e)
        ↔ (throw_error = true ∧ ∃ c ∈ cmds_list, (shell c).2 ≠ 0))
    ∧ (∀ e, local_job_runner shell cmds_list num_threads throw_error = .error e →
        ∀ c ∈ cmds_list, (shell c).2 ≠ 0 →
          ("CMD failed: " ++ c ++ ", " ++ (shell c).1).data.IsInfix e.data)
    ∧ (∀ l, local_job_runner shell cmds_list num_threads throw_error = .ok l →
        l = cmds_list.filter fun c => (shell c).2 ≠ 0) := by
  have hfc : ((cmds_list.zip (cmds_list.map shell)).filter
        fun p => p.2.2 ≠ 0).map Prod.fst
      = cmds_list.filter fun c => (shell c).2 ≠ 0 := by
    rw [zip_shell_filter, List.map_map]
    have he : (Prod.fst ∘ fun c : String => (c, shell c)) = id := rfl
    rw [he, List.map_id]
  have hzip : (((cmds_list.zip (cmds_list.map shell)).filter
          fun p => p.2.2 ≠ 0).map Prod.fst).zip
        (((cmds_list.zip (cmds_list.map shell)).filter
          fun p => p.2.2 ≠ 0).map fun p => p.2.1)
      = (cmds_list.filter fun c => (shell c).2 ≠ 0).map
          fun c => (c, (shell c).1) := by
    rw [zip_shell_filter, List.map_map, List.map_map, List.zip_map']
    rfl
  have hne : (0 < (cmds_list.filter fun c => (shell c).2 ≠ 0).length)
      ↔ ∃ c ∈ cmds_list, (shell c).2 ≠ 0 := by
    rw [List.length_pos]
    constructor
    · intro h
      rcases List.exists_mem_of_ne_nil _ h with ⟨c, hc⟩
      rcases List.mem_filter.mp hc with ⟨h1, h2⟩
      exact ⟨c, h1, by simpa using h2⟩
    · rintro ⟨c, h1, h2⟩
      intro hnil
      have : c ∈ (cmds_list.filter fun c => (shell c).2 ≠ 0) :=
        List.mem_filter.mpr ⟨h1, by simpa using h2⟩
      rw [hnil] at this
      simp at this
  unfold local_job_runner
  simp only [hzip]
  simp only [hfc]
  by_cases hcond : (throw_error = true) ∧ 0 < (cmds_list.filter fun c => (shell c).2 ≠ 0).length
  · rw [if_pos (by exact_mod_cast hcond)]
    refine ⟨?_, ?_, ?_⟩
    · constructor
      · intro _
        exact ⟨hcond.1, hne.mp hcond.2⟩
      · intro _
        exact ⟨_, rfl⟩
    · intro e he c hc hfail
      injection he with he
      rw [← he]
      have hmem : ("CMD failed: " ++ c ++ ", " ++ (shell c).1)
          ∈ ((cmds_list.filter fun x => (shell x).2 ≠ 0).map
              fun x => (x, (shell x).1)).map
            (fun p => "CMD failed: " ++ p.1 ++ ", " ++ p.2) := by
        rw [List.map_map]
        exact List.mem_map.mpr
          ⟨c, List.mem_filter.mpr ⟨hc, by simpa using hfail⟩, rfl⟩
      exact strJoin_mem_infix _ _ _ hmem
    · intro l hl
      cases hl
  · rw [if_neg (by exact_mod_cast hcond)]
    refine ⟨?_, ?_, ?_⟩
    · constructor
      · rintro ⟨e, he⟩
        cases he
      · rintro ⟨h1, h2⟩
        exact absurd ⟨h1, hne.mpr h2⟩ hcond
    · intro e he
      cases he
    · intro l hl
      injection hl with hl
      exact hl.symm

/-- A shell oracle for the C7 witness: only the command "false" fails. -/
def shellW (c : String) : String × Int :=
  if c = "false" then ("boom", 1) else ("", 0)

/-- Witness for C7 on the spec's example batch: with `failFast=false` it
returns exactly the failed command; with `failFast=true` it raises. -/
theorem C7_local_executor_witness :
    local_job_runner shellW ["true", "false", "true"] 1 false = .ok ["false"]
    ∧ ∃ e, local_job_runner shellW ["true", "false", "true"] 1 true
        = .error e := by
  refine ⟨by rfl, (C7_local_executor shellW ["true", "false", "true"] 1
    true).1.mpr ⟨rfl, "false", by decide, by decide⟩⟩

/-! ## Remote submission (RunnerUtils.py, `sge_submit`) -/

/-- Helper for `pySplit`: accumulate the current word (reversed) while
scanning the characters. -/
def wordsAux : List Char → List Char → List (List Char)
  | [], [] => []
  | [], cur => [cur.reverse]
  | c :: rest, cur =>
    if c.isWhitespace then
      if cur.isEmpty then wordsAux rest [] else cur.reverse :: wordsAux rest []
    else wordsAux rest (c :: cur)

/-- Python's `s.split()` with no argument: split on whitespace runs, dropping
empty tokens. -/
def pySplit (s : String) : List String :=
  (wordsAux s.data []).map fun l => ⟨l⟩

inductive SubmitOutcome
  /-- `return str(out).split()[2]` (line 106) -/
  | ok (jid : String)
  /-- `raise RuntimeError("Unable to qsub CMD ...")` (lines 112-113) -/
  | exhausted
  /-- an `IndexError` from `split()[2]` on an acknowledgment of < 3 tokens -/
  | parseFail
  deriving Repr, DecidableEq

/-- The `while try_times <= qsub_try_times` loop of `sge_submit`
(lines 100-113), with `backticks(qsub_cmd)` modelled by the oracle
`tries : attempt index ↦ (out, exit code)`.  `remaining` is the number of
loop iterations left (`qsub_try_times - try_times + 1`) and `idx` the current
value of `try_times`.  Returns (outcome, attempts made, seconds slept): each
failed attempt does `time.sleep(5)` before retrying (line 109). -/
def sge_submitGo (tries : Nat → String × Int) :
    Nat → Nat → SubmitOutcome × Nat × Nat
  | 0, _ => (.exhausted, 0, 0)
  | r + 1, idx =>
    let out := (tries idx).1
    let code := (tries idx).2
    if code = 0 then
      (match (pySplit out).get? 2 with
       | some jid => .ok jid
       | none => .parseFail, 1, 0)
    else
      let rec0 := sge_submitGo tries r (idx + 1)
      (rec0.1, rec0.2.1 + 1, rec0.2.2 + 5)

/-- `RunnerUtils.sge_submit` (lines 90-113): submit, retrying up to
`qsub_try_times` times, sleeping 5 seconds after each failed attempt;
attempts are numbered from `try_times = 1`. -/
def sge_submit (tries : Nat → String × Int) (qsub_try_times : Nat) :
    SubmitOutcome × Nat × Nat :=
  sge_submitGo tries qsub_try_times 1

theorem sge_submitGo_all_fail (tries : Nat → String × Int) (r : Nat) :
    ∀ idx, (∀ j, idx ≤ j → j < idx + r → (tries j).2 ≠ 0) →
      sge_submitGo tries r idx = (.exhausted, r, 5 * r) := by
  induction r with
  | zero => intro idx _; rfl
  | succ r ih =>
    intro idx hall
    have hfail : (tries idx).2 ≠ 0 := hall idx (le_refl _) (by omega)
    rw [show sge_submitGo tries (r + 1) idx
          = if (tries idx).2 = 0 then
              (match (pySplit (tries idx).1).get? 2 with
               | some jid => .ok jid
               | none => .parseFail, 1, 0)
            else
              ((sge_submitGo tries r (idx + 1)).1,
                (sge_submitGo tries r (idx + 1)).2.1 + 1,
                (sge_submitGo tries r (idx + 1)).2.2 + 5)
          from rfl]
    rw [if_neg hfail]
    rw [ih (idx + 1) (fun j h1 h2 => hall j (by omega) (by omega))]
    dsimp only
    have h1 : r + 1 = r + 1 := rfl
    have h5 : 5 * r + 5 = 5 * (r + 1) := by omega
    rw [h5]

theorem sge_submitGo_first_success (tries : Nat → String × Int) (r : Nat) :
    ∀ idx k, idx ≤ k → k < idx + r → (tries k).2 = 0 →
      (∀ j, idx ≤ j → j < k → (tries j).2 ≠ 0) →
      sge_submitGo tries r idx
        = (match (pySplit (tries k).1).get? 2 with
           | some jid => SubmitOutcome.ok jid
           | none => SubmitOutcome.parseFail, k - idx + 1, 5 * (k - idx)) := by
  induction r with
  | zero => intro idx k h1 h2; omega
  | succ r ih =>
    intro idx k h1 h2 hk hbefore
    rw [show sge_submitGo tries (r + 1) idx
          = if (tries idx).2 = 0 then
              (match (pySplit (tries idx).1).get? 2 with
               | some jid => SubmitOutcome.ok jid
               | none => SubmitOutcome.parseFail, 1, 0)
            else
              ((sge_submitGo tries r (idx + 1)).1,
                (sge_submitGo tries r (idx + 1)).2.1 + 1,
                (sge_submitGo tries r (idx + 1)).2.2 + 5)
          from rfl]
    by_cases hidx : (tries idx).2 = 0
    · have : k = idx := by
        by_contra hne
        exact (hbefore idx (le_refl _) (by omega)) hidx
      subst this
      rw [if_pos hidx]
      have e1 : k - k + 1 = 1 := by omega
      have e2 : 5 * (k - k) = 0 := by omega
      rw [e1, e2]
    · have hik : idx < k := by
        rcases Nat.lt_or_ge idx k with h | h
        · exact h
        · have : k = idx := by omega
          subst this
          exact absurd hk hidx
      rw [if_neg hidx]
      rw [ih (idx + 1) k (by omega) (by omega) hk
        (fun j hj1 hj2 => hbefore j (by omega) hj2)]
      dsimp only
      have e1 : k - (idx + 1) + 1 + 1 = k - idx + 1 := by omega
      have e2 : 5 * (k - (idx + 1)) + 5 = 5 * (k - idx) := by omega
      rw [e1, e2]

/-- C8: with `qsub_try_times = maxAttempts ≥ 1`, `sge_submit` attempts the
invocation up to `maxAttempts` times, sleeping a fixed 5 seconds after each
failed attempt; on the first successful attempt `k` it returns the job id
parsed as the third whitespace-separated token of the scheduler's
acknowledgment, having made `k` attempts and slept `5·(k-1)` seconds; after
`maxAttempts` consecutive failures it raises (outcome `exhausted`) having made
`maxAttempts` attempts and slept `5·maxAttempts` seconds. -/
theorem C8_sge_submit_retry (tries : Nat → String × Int) (n : Nat)
    (hn : 1 ≤ n) :
    (∀ k jid, 1 ≤ k → k ≤ n → (tries k).2 = 0 →
      (∀ j, 1 ≤ j → j < k → (tries j).2 ≠ 0) →
      (pySplit (tries k).1).get? 2 = some jid →
      sge_submit tries n = (.ok jid, k, 5 * (k - 1)))
    ∧ ((∀ j, 1 ≤ j → j ≤ n → (tries j).2 ≠ 0) →
      sge_submit tries n = (.exhausted, n, 5 * n)) := by
  constructor
  · intro k jid h1 h2 hk hbefore hparse
    unfold sge_submit
    rw [sge_submitGo_first_success tries n 1 k h1 (by omega) hk hbefore, hparse]
    have e1 : k - 1 + 1 = k := by omega
    rw [e1]
  · intro hall
    unfold sge_submit
    exact sge_submitGo_all_fail tries n 1 fun j hj1 hj2 => hall j hj1 (by omega)

/-- Submission oracle for the C8 witness: the first attempt fails, the second
returns the scheduler acknowledgment. -/
def triesW (i : Nat) : String × Int :=
  if i = 1 then ("qsub: cannot connect", 1) else ("Your job 596028 has been submitted", 0)

/-- Witness for C8: success on attempt 2 of 3 returns the third token
"596028" after one 5-second backoff; an always-failing oracle exhausts all
3 attempts with three 5-second backoffs. -/
theorem C8_sge_submit_retry_witness :
    (1 ≤ 3 ∧ (triesW 2).2 = 0 ∧ (pySplit (triesW 2).1).get? 2 = some "596028")
    ∧ sge_submit triesW 3 = (.ok "596028", 2, 5 * (2 - 1))
    ∧ sge_submit (fun _ => ("no", 1)) 3 = (.exhausted, 3, 5 * 3) := by
  refine ⟨⟨by decide, by decide, by rfl⟩, ?_, ?_⟩
  · exact (C8_sge_submit_retry triesW 3 (by decide)).1 2 "596028" (by decide)
      (by decide) (by decide) (by decide) (by rfl)
  · exact (C8_sge_submit_retry (fun _ => ("no", 1)) 3 (by decide)).2
      (fun j _ _ => by decide)

/-! ## Remote batch runner (RunnerUtils.py, `sge_job_runner`) -/

/-- An external side effect performed by `sge_job_runner`. -/
inductive Event
  /-- `write_cmd_to_script(cmd, script)` (line 263) -/
  | write (script cmd : String)
  /-- a successful `sge_submit` of `script` that returned `jid` (line 266) -/
  | submitted (script jid : String)
  /-- `qdel {jid}` issued by `kill_sge_jobs` during the wait -/
  | qdel (jid : String)
  /-- a rescue-stage `local_job_runner` call on one killed command (line 291) -/
  | localRun (cmd : String)
  deriving Repr, DecidableEq

/-- Oracles for all external behaviour one `sge_job_runner` call can see. -/
structure RunEnv where
  /-- `backticks(qsub_cmd)` outcomes: for the k-th submission overall,
  the successive attempts (attempt index ↦ (out, exit code)) -/
  submitTries : Nat → Nat → String × Int
  /-- qstat outcomes driving the wait loop at recursion depth `d` -/
  pollTrace : Nat → List PollResult
  /-- local execution of one command, for the "locally" rescue -/
  localExec : String → String × Int

inductive RunErr
  /-- `raise ValueError` (lines 254-256 and 303-304) -/
  | valueError
  /-- the `RuntimeError` of `sge_submit` propagating (lines 112-113) -/
  | submitFail
  /-- the `RuntimeError` of `get_active_sge_jobs` propagating (lines 86-87) -/
  | waitRaised
  deriving Repr, DecidableEq

inductive RunOutcome
  /-- normal return: the (command, script) pairs still failed -/
  | ok (failed : List (String × String))
  | err (e : RunErr)
  /-- the poll trace ran out while the wait loop was still polling -/
  | fuelOut
  deriving Repr, DecidableEq

structure RunResult where
  outcome : RunOutcome
  events : List Event
  /-- next overall submission counter, indexing into `submitTries` -/
  nextSub : Nat
  deriving Repr, DecidableEq

/-- The submission loop of `sge_job_runner` (lines 260-269): for each
(cmd, script) pair, wrap the command as `timeout {run_timeout} {cmd}` when
`run_timeout` is set and the command does not already start with "timeout"
(lines 261-262), write the script, submit it and record jid -> (cmd, script).
The job-id map is kept most-recent-first, matching Python dict overwrite on a
duplicate jid.  `.error` models the `RuntimeError` of `sge_submit` propagating
mid-loop (the events so far, scripts already written, stay performed). -/
def submitAll (env : RunEnv) (rt : Option Nat) (qt : Nat) :
    List (String × String) → Nat → List Event →
    List (String × (String × String)) → List String →
    Except (List Event × Nat)
      (List Event × List (String × (String × String)) × List String × Nat)
  | [], ctr, evs, jmap, jids => .ok (evs, jmap, jids, ctr)
  | (cmd, script) :: rest, ctr, evs, jmap, jids =>
    let cmd' := match rt with
      | some r => if pyStartsWith cmd "timeout" then cmd
                  else "timeout " ++ toString r ++ " " ++ cmd
      | none => cmd
    let evs' := evs ++ [.write script cmd']
    match (sge_submit (env.submitTries ctr) qt).1 with
    | .ok jid =>
        submitAll env rt qt rest (ctr + 1) (evs' ++ [.submitted script jid])
          ((jid, (cmd', script)) :: jmap) (jids ++ [jid])
    | _ => .error (evs', ctr + 1)

/-- The `rescue == "locally"` branch of `sge_job_runner` (lines 288-296):
rerun each killed command exactly once through `local_job_runner` with
`throw_error=False`; keep the (cmd, script) pair iff that single attempt also
fails.  Also returns the local-run events, one per killed pair. -/
def rescue_locally (lexec : String → String × Int) (nthreads : Nat) :
    List (String × String) → List (String × String) × List Event
  | [] => ([], [])
  | (cmd, script) :: rest =>
    let failed :=
      match local_job_runner lexec [cmd] nthreads false with
      | .ok fl => decide (fl.length ≠ 0)
      | .error _ => true
    let r := rescue_locally lexec nthreads rest
    ((if failed then [(cmd, script)] else []) ++ r.1,
      Event.localRun cmd :: r.2)

/-- `RunnerUtils.sge_job_runner` (lines 219-305): write and submit one script
per command, wait with the two timeout policies, then apply the rescue policy
to the killed (command, script) pairs.  `depth` indexes the poll trace of this
recursion level, `ctr` the overall submission counter.  `rescue_times` is ℕ:
the code's `rescue_times <= 0` test becomes `= 0` (Python callers pass
non-negative budgets).  The recursion on the "sge" rescue branch (lines
297-302) passes `cmds_list=[], script_files=[]` and `rescue_times - 1`,
exactly as the source does. -/
def sge_job_runner (env : RunEnv) (depth ctr : Nat)
    (cmds_list script_files : List String) (nthreads qt : Nat)
    (wt rt : Option Nat) (rescue : Option String) (rescue_times : Nat) :
    RunResult :=
  if cmds_list.length ≠ script_files.length then ⟨.err .valueError, [], ctr⟩
  else
    match submitAll env rt qt (cmds_list.zip script_files) ctr [] [] [] with
    | .error (evs, ctr') => ⟨.err .submitFail, evs, ctr'⟩
    | .ok (evs, jmap, jids, ctr') =>
      match wait_for_sge_jobs jids wt rt (env.pollTrace depth) with
      | none => ⟨.fuelOut, evs, ctr'⟩
      | some w =>
        let evs2 := evs ++ w.kills.map Event.qdel
        match w.outcome with
        | .raised => ⟨.err .waitRaised, evs2, ctr'⟩
        | .done killed =>
          let killedPairs := killed.filterMap fun j => jmap.lookup j
          if rescue = none ∨ rescue_times = 0 then ⟨.ok killedPairs, evs2, ctr'⟩
          else if rescue = some "locally" then
            let r := rescue_locally env.localExec nthreads killedPairs
            ⟨.ok r.1, evs2 ++ r.2, ctr'⟩
          else if rescue = some "sge" then
            match rescue_times with
            | 0 => ⟨.ok killedPairs, evs2, ctr'⟩
            | t + 1 =>
              let r := sge_job_runner env (depth + 1) ctr' [] [] nthreads qt
                wt rt rescue t
              ⟨r.outcome, evs2 ++ r.events, r.nextSub⟩
          else ⟨.err .valueError, evs2, ctr'⟩

/-- C10: when the number of commands differs from the number of script files,
the remote batch runner raises `ValueError` (lines 253-256) before writing any
script file or submitting any job: the result is the error with an empty
event log, all external state untouched. -/
theorem C10_length_mismatch (env : RunEnv) (depth ctr : Nat)
    (cmds_list script_files : List String) (nthreads qt : Nat)
    (wt rt : Option Nat) (rescue : Option String) (rescue_times : Nat)
    (h : cmds_list.length ≠ script_files.length) :
    sge_job_runner env depth ctr cmds_list script_files nthreads qt wt rt
        rescue rescue_times
      = ⟨.err .valueError, [], ctr⟩ := by
  unfold sge_job_runner
  rw [if_pos h]

/-- A trivial environment for witnesses: every submission is acknowledged with
"a b 1", every poll reports nothing active, every local run succeeds. -/
def envW : RunEnv where
  submitTries := fun _ _ => ("a b 1", 0)
  pollTrace := fun _ => [some []]
  localExec := fun _ => ("", 0)

/-- Witness for C10: one command, no script file. -/
theorem C10_length_mismatch_witness :
    (["a"].length ≠ ([] : List String).length)
    ∧ sge_job_runner envW 0 0 ["a"] [] 1 1 none none none 0
        = ⟨.err .valueError, [], 0⟩ :=
  ⟨by decide,
   C10_length_mismatch envW 0 0 ["a"] [] 1 1 none none none 0 (by decide)⟩

theorem local_single (lexec : String → String × Int) (nthreads : Nat)
    (cmd : String) :
    local_job_runner lexec [cmd] nthreads false
      = .ok (if (lexec cmd).2 ≠ 0 then [cmd] else []) := by
  by_cases hf : (lexec cmd).2 ≠ 0 <;> simp [local_job_runner, hf]

theorem rescue_locally_eq (lexec : String → String × Int) (nthreads : Nat) :
    ∀ killedPairs : List (String × String),
      rescue_locally lexec nthreads killedPairs
        = (killedPairs.filter fun p => (lexec p.1).2 ≠ 0,
           killedPairs.map fun p => Event.localRun p.1) := by
  intro kp
  induction kp with
  | nil => rfl
  | cons p rest ih =>
    obtain ⟨cmd, script⟩ := p
    simp only [rescue_locally]
    rw [local_single, ih]
    by_cases hf : (lexec cmd).2 ≠ 0
    · simp [hf]
    · simp [hf]

/-- C9: for every set of killed (command, script) pairs rescued with mode
"locally" and a positive remaining budget, each pair is rerun exactly once via
the local executor with `throw_error=False` (one `localRun` event per pair, in
order), and a pair appears in the returned failure list iff that single local
attempt also fails; the budget value is irrelevant beyond being positive, so
no pair is ever retried more than once. -/
theorem C9_local_rescue_once (lexec : String → String × Int) (nthreads : Nat)
    (killedPairs : List (String × String)) (hk : killedPairs ≠ [])
    (env : RunEnv) (depth ctr : Nat) (cmds_list script_files : List String)
    (qt : Nat) (wt rt : Option Nat) (b : Nat) (hb : 1 ≤ b) :
    rescue_locally lexec nthreads killedPairs
        = (killedPairs.filter fun p => (lexec p.1).2 ≠ 0,
           killedPairs.map fun p => Event.localRun p.1)
    ∧ sge_job_runner env depth ctr cmds_list script_files nthreads qt wt rt
          (some "locally") b
        = sge_job_runner env depth ctr cmds_list script_files nthreads qt wt rt
          (some "locally") 1 := by
  refine ⟨rescue_locally_eq lexec nthreads killedPairs, ?_⟩
  unfold sge_job_runner
  by_cases hlen : cmds_list.length ≠ script_files.length
  · rw [if_pos hlen, if_pos hlen]
  · rw [if_neg hlen, if_neg hlen]
    cases hsub : submitAll env rt qt (cmds_list.zip script_files) ctr [] [] [] with
    | error p =>
      obtain ⟨pevs, pctr⟩ := p
      rfl
    | ok q =>
      obtain ⟨evs, jmap, jids, ctr'⟩ := q
      dsimp only
      cases hw : wait_for_sge_jobs jids wt rt (env.pollTrace depth) with
      | none => rfl
      | some w =>
        obtain ⟨outcome, kills⟩ := w
        dsimp only
        cases outcome with
        | raised => rfl
        | done killed =>
          dsimp only
          have h1 : ¬((some "locally" : Option String) = none ∨ b = 0) := by
            simp
            omega
          have h2 : ¬((some "locally" : Option String) = none ∨ (1 : Nat) = 0) := by
            simp
          rw [if_neg h1, if_neg h2, if_pos rfl, if_pos rfl]

/-- A local-execution oracle for the C9 witness: only the command "bad"
fails. -/
def lexecW (c : String) : String × Int :=
  if c = "bad" then ("crash", 1) else ("", 0)

/-- Witness for C9: of two killed pairs, each is locally rerun exactly once,
and only the failing one remains in the rescue result; the runner's result
with budget 5 equals the one with budget 1. -/
theorem C9_local_rescue_once_witness :
    ([("bad", "s1"), ("good", "s2")] ≠ ([] : List (String × String)) ∧ 1 ≤ 5)
    ∧ rescue_locally lexecW 1 [("bad", "s1"), ("good", "s2")]
        = ([("bad", "s1")], [.localRun "bad", .localRun "good"])
    ∧ sge_job_runner envW 0 0 ["a"] ["s"] 1 1 none none (some "locally") 5
        = sge_job_runner envW 0 0 ["a"] ["s"] 1 1 none none (some "locally") 1 := by
  have h := C9_local_rescue_once lexecW 1 [("bad", "s1"), ("good", "s2")]
    (by decide) envW 0 0 ["a"] ["s"] 1 none none 5 (by decide)
  exact ⟨⟨by decide, by decide⟩, h.1.trans (by rfl), h.2⟩

/-- Environment for the C1 failing input: the single submission succeeds with
job id "42"; at recursion depth 0 the job stays queued ("qw") for two poll
cycles, so the 15-second wait timeout kills it; deeper waits see nothing
active. -/
def envC1 : RunEnv where
  submitTries := fun _ _ => ("a b 42", 0)
  pollTrace := fun d =>
    if d = 0 then [some [("42", "qw")], some [("42", "qw")]] else [some []]
  localExec := fun _ => ("", 0)

/-- C1 fails on the code (the spec itself flags the defect): with rescue mode
"sge" and budget 1, the batch ["c1"] / ["s1"] is submitted (job id "42"),
killed by the wait timeout (the `qdel "42"` event), and the killed pair
("c1", "s1") then reaches neither the recursive resubmission (lines 297-302
pass `cmds_list=[], script_files=[]`, so no further write/submit event occurs)
nor the returned failure list, which is empty: the killed unit of work is
silently dropped. -/
theorem C1_sge_rescue_drops_killed :
    sge_job_runner envC1 0 0 ["c1"] ["s1"] 1 1 (some 15) none (some "sge") 1
      = ⟨.ok [], [.write "s1" "c1", .submitted "s1" "42", .qdel "42"], 1⟩ := by
  rfl

end PBTranscript
